import Mathlib

/-!
Verification development for the werewolf-signaling server.

The TypeScript source is embedded shallowly:
  * JS strings are `List Char`; JS `Map` objects are association lists in
    insertion order (`alGet`/`alSet`/`alDel` mirror `get`/`set`/`delete`);
  * JSON values are the inductive `JVal`; numbers are `Int` (no claim here
    depends on float behaviour);
  * randomness (`crypto.getRandomValues`, `makeId`) is passed in explicitly:
    room-code entropy as a function from attempt index to the sampled bytes,
    fresh identifiers/tokens as explicit arguments;
  * thrown exceptions become `Except`/`Option` results; a thrown error
    returns no store, which models that the store is left unmutated (in the
    source every `throw` happens before any mutation);
  * `Date.now()` is an explicit `now : Int` argument;
  * network sends are modelled as emitted `(recipientClientId, event)` pairs;
    the `readyState`/serialization guards of `sendJson` are transport-level
    and sit below this model.

JS reference semantics: the server stores the same session object in the
session registry and in a room's membership map, so a later field assignment
is visible through both. The embedding passes session values explicitly and
writes the updated value back to every map that holds it, which yields the
same end-of-handler state as the reference-sharing source.
-/

/-- Characters of a string literal, the `List Char` spelling of JS strings used
throughout this file. -/
def cs (s : String) : List Char := s.data

/-- Whitespace recognised by JS `String.prototype.trim` (ASCII part; the claims
never involve exotic Unicode spaces). -/
def isJsWs (c : Char) : Bool :=
  c == ' ' || c == '\t' || c == '\n' || c == '\r' || c == '\x0b' || c == '\x0c'

/-- JS `value.trim()`. -/
def jsTrim (s : List Char) : List Char :=
  ((s.dropWhile isJsWs).reverse.dropWhile isJsWs).reverse

/-- JS `value.toUpperCase()` (ASCII). -/
def jsToUpper (s : List Char) : List Char := s.map Char.toUpper

/-- `normalizeRoomId` from `memoryStore.ts`: `value.trim().toUpperCase()`. -/
def normalizeRoomId (s : List Char) : List Char := jsToUpper (jsTrim s)

/-- JS `Map.get`: first entry with the given key. -/
def alGet {α : Type} (k : List Char) : List (List Char × α) → Option α
  | [] => none
  | p :: rest => if p.1 = k then some p.2 else alGet k rest

/-- JS `Map.set`: replace the entry in place if the key exists, else append
(insertion order is preserved, a fresh key goes to the back). -/
def alSet {α : Type} (k : List Char) (v : α) : List (List Char × α) → List (List Char × α)
  | [] => [(k, v)]
  | p :: rest => if p.1 = k then (k, v) :: rest else p :: alSet k v rest

/-- JS `Map.delete`: drop the entry with the given key. -/
def alDel {α : Type} (k : List Char) : List (List Char × α) → List (List Char × α)
  | [] => []
  | p :: rest => if p.1 = k then alDel k rest else p :: alDel k rest

/-- Keys of a JS `Map`, in iteration (= insertion) order. -/
def alKeys {α : Type} (l : List (List Char × α)) : List (List Char) := l.map Prod.fst

/- ## Room Ledger (`InMemoryRoomStore`) -/

inductive ParticipantRole
  | host
  | guest
deriving DecidableEq

structure RoomParticipant where
  participantId : List Char
  displayName : Option (List Char)
  role : ParticipantRole
  joinedAt : Int
deriving DecidableEq

structure RoomRecord where
  id : List Char
  createdAt : Int
  hostToken : List Char
  participants : List (List Char × RoomParticipant)
deriving DecidableEq

structure InMemoryRoomStore where
  rooms : List (List Char × RoomRecord)
deriving DecidableEq

inductive RoomStoreError
  | roomNotFound (roomId : List Char)
  | invalidHostToken
deriving DecidableEq

def ROOM_ID_ALPHABET : List Char := cs "ABCDEFGHJKMNPQRSTUVWXYZ23456789"

def ROOM_ID_LENGTH : Nat := 6

/-- One candidate room code built from one `Uint32Array(ROOM_ID_LENGTH)` of
sampled values: `code += ROOM_ID_ALPHABET[randomBytes[index] % alphabet.length]`. -/
def codeFromBytes (bytes : List Nat) : List Char :=
  (List.range ROOM_ID_LENGTH).map
    (fun i => ROOM_ID_ALPHABET.getD ((bytes.getD i 0) % ROOM_ID_ALPHABET.length) ' ')

/-- Retry loop of `generateRoomId`: `attempt` is the index of the next try,
the fuel counts the remaining tries out of the original 20. `none` models the
thrown `Failed to allocate a unique room id` error. -/
def genAux (existing : List (List Char)) (entropy : Nat → List Nat) :
    Nat → Nat → Option (List Char)
  | _, 0 => none
  | attempt, Nat.succ fuel =>
    let normalized := normalizeRoomId (codeFromBytes (entropy attempt))
    if normalized ∈ existing then genAux existing entropy (attempt + 1) fuel
    else some normalized

/-- `generateRoomId` from `memoryStore.ts` with its entropy passed explicitly
(attempt index to sampled bytes). -/
def generateRoomId (existing : List (List Char)) (entropy : Nat → List Nat) :
    Option (List Char) :=
  genAux existing entropy 0 20

structure CreateRoomResult where
  roomId : List Char
  hostToken : List Char
  createdAt : Int
deriving DecidableEq

/-- `InMemoryRoomStore.createRoom`; the fresh host token stands for `makeId()`
and `now` for `Date.now()`. `none` models the fatal allocation error. -/
def createRoom (store : InMemoryRoomStore) (entropy : Nat → List Nat)
    (freshHostToken : List Char) (now : Int) :
    Option (InMemoryRoomStore × CreateRoomResult) :=
  match generateRoomId (alKeys store.rooms) entropy with
  | none => none
  | some roomId =>
    some ({ rooms := alSet roomId
              { id := roomId, createdAt := now, hostToken := freshHostToken,
                participants := [] } store.rooms },
          { roomId := roomId, hostToken := freshHostToken, createdAt := now })

/-- A sequence of `createRoom` calls (each with its own entropy, fresh token and
timestamp), returning the final store and the `roomId`s of the calls that
succeeded, in order. -/
def runCreates (store : InMemoryRoomStore) :
    List ((Nat → List Nat) × List Char × Int) → InMemoryRoomStore × List (List Char)
  | [] => (store, [])
  | call :: rest =>
    match createRoom store call.1 call.2.1 call.2.2 with
    | none => runCreates store rest
    | some (store2, res) =>
      let next := runCreates store2 rest
      (next.1, res.roomId :: next.2)

/-- A JS value that may fail the `typeof roomIdRaw !== "string"` check. -/
inductive JsString
  | str (value : List Char)
  | notAString

structure JoinRoomOptions where
  displayName : Option (List Char) := none
  role : Option (List Char) := none
  hostToken : Option (List Char) := none

structure JoinRoomResult where
  roomId : List Char
  participantId : List Char
  role : ParticipantRole
  displayName : Option (List Char)
  joinedAt : Int
deriving DecidableEq

/-- The host-token test of `joinRoom`; `false` exactly when
`!options.hostToken || options.hostToken !== room.hostToken` holds (a missing,
null or empty token is falsy). -/
def hostTokenMatches (supplied : Option (List Char)) (actual : List Char) : Bool :=
  match supplied with
  | none => false
  | some t => !t.isEmpty && t == actual

/-- Role resolution of `joinRoom`: `options.role === "host" ? "host" : "guest"`. -/
def joinRoomRole (options : JoinRoomOptions) : ParticipantRole :=
  match options.role with
  | some r => if r = cs "host" then .host else .guest
  | none => .guest

/-- Display-name resolution of `joinRoom`: a string whose trim is non-empty is
kept trimmed, anything else becomes null. -/
def joinRoomDisplayName (options : JoinRoomOptions) : Option (List Char) :=
  match options.displayName with
  | some d => if (jsTrim d).isEmpty then none else some (jsTrim d)
  | none => none

/-- `InMemoryRoomStore.joinRoom`. The fresh participant id stands for
`makeId()`. A thrown error is an `Except.error`; since every `throw` in the
source precedes the single mutation, the error cases leave the store as it was. -/
def joinRoom (store : InMemoryRoomStore) (roomIdRaw : JsString)
    (options : JoinRoomOptions) (freshParticipantId : List Char) (now : Int) :
    Except RoomStoreError (InMemoryRoomStore × JoinRoomResult) :=
  match roomIdRaw with
  | .notAString => .error (.roomNotFound [])
  | .str raw =>
    if (jsTrim raw).isEmpty then .error (.roomNotFound raw)
    else
      let roomId := normalizeRoomId raw
      match alGet roomId store.rooms with
      | none => .error (.roomNotFound roomId)
      | some room =>
        let role : ParticipantRole := joinRoomRole options
        let displayName : Option (List Char) := joinRoomDisplayName options
        if role = ParticipantRole.host ∧ hostTokenMatches options.hostToken room.hostToken = false
        then .error .invalidHostToken
        else
          let participant : RoomParticipant :=
            { participantId := freshParticipantId, displayName := displayName,
              role := role, joinedAt := now }
          let room2 := { room with
            participants := alSet freshParticipantId participant room.participants }
          .ok ({ rooms := alSet roomId room2 store.rooms },
               { roomId := roomId, participantId := freshParticipantId, role := role,
                 displayName := displayName, joinedAt := now })

/-- The participant record a successful `joinRoom` stores. -/
def joinOkParticipant (opts : JoinRoomOptions) (fresh : List Char) (now : Int) :
    RoomParticipant :=
  { participantId := fresh, displayName := joinRoomDisplayName opts,
    role := joinRoomRole opts, joinedAt := now }

/-- The room record after a successful `joinRoom` stored the new participant. -/
def joinOkRoom (room : RoomRecord) (opts : JoinRoomOptions) (fresh : List Char)
    (now : Int) : RoomRecord :=
  { room with
    participants := alSet fresh (joinOkParticipant opts fresh now) room.participants }

/-- The store a successful `joinRoom` returns. -/
def joinOkStore (store : InMemoryRoomStore) (raw : List Char) (room : RoomRecord)
    (opts : JoinRoomOptions) (fresh : List Char) (now : Int) : InMemoryRoomStore :=
  { rooms := alSet (normalizeRoomId raw) (joinOkRoom room opts fresh now) store.rooms }

/-- The projection a successful `joinRoom` returns. -/
def joinOkResult (raw : List Char) (opts : JoinRoomOptions) (fresh : List Char)
    (now : Int) : JoinRoomResult :=
  { roomId := normalizeRoomId raw, participantId := fresh, role := joinRoomRole opts,
    displayName := joinRoomDisplayName opts, joinedAt := now }

/- ## Real-time layer (sessions, Room Directory, message router) -/

/-- JSON values as produced by `JSON.parse` (numbers as `Int`; no claim in this
development depends on float behaviour). -/
inductive JVal
  | null
  | bool (b : Bool)
  | num (n : Int)
  | str (s : List Char)
  | arr (elems : List JVal)
  | obj (fields : List (List Char × JVal))

/-- JS property access `v.key` on a parsed JSON value: a field of an object,
`undefined` (here `none`) otherwise. -/
def jGet (v : JVal) (k : List Char) : Option JVal :=
  match v with
  | .obj fields => alGet k fields
  | _ => none

/-- JS truthiness of a possibly-undefined value: `undefined`, `null`, `false`,
`0` and the empty string are falsy. -/
def jvTruthy : Option JVal → Bool
  | none => false
  | some .null => false
  | some (.bool b) => b
  | some (.num n) => !(n == 0)
  | some (.str s) => !s.isEmpty
  | some (.arr _) => true
  | some (.obj _) => true

/-- The `payload && typeof payload === "object"` gate of `onMessage`: only
parsed arrays and objects pass (null is falsy, everything else is not of
object type). -/
def objLike : JVal → Bool
  | .arr _ => true
  | .obj _ => true
  | _ => false

/-- JS truthiness of a `string | null` session field such as `session.roomId`:
`null` and the empty string are falsy. -/
def jsTruthyStr : Option (List Char) → Bool
  | none => false
  | some s => !s.isEmpty

structure ClientSession where
  id : List Char
  roomId : Option (List Char)
  displayName : Option (List Char)
  role : ParticipantRole
deriving DecidableEq

structure ParticipantSummary where
  clientId : List Char
  displayName : Option (List Char)
  role : ParticipantRole
deriving DecidableEq

inductive ServerEvent
  | welcome (clientId : List Char)
  | roomState (participants : List ParticipantSummary)
  | userJoined (participant : ParticipantSummary)
  | userLeft (clientId : List Char)
  | signal (fromId : List Char) (payload : JVal)
  | chat (clientId : List Char) (text : List Char) (messageId : List Char) (timestamp : Int)

/-- Rooms of the live Room Directory: room code to membership map. -/
abbrev Directory := List (List Char × List (List Char × ClientSession))

structure ServerState where
  sessions : List (List Char × ClientSession)
  activeRooms : Directory

def initialState : ServerState := { sessions := [], activeRooms := [] }

/-- The `exclude && clientId === exclude` test of `broadcastToRoom`
(an empty-string exclude is falsy and excludes nobody). -/
def excludeHit : Option (List Char) → List Char → Bool
  | none, _ => false
  | some e, cid => !e.isEmpty && cid == e

/-- `broadcastToRoom`: one emitted `(recipient, payload)` per member of the
room, in membership order, skipping the excluded client. -/
def broadcastToRoom (rooms : Directory) (roomId : List Char) (ev : ServerEvent)
    (exclude : Option (List Char)) : List (List Char × ServerEvent) :=
  match alGet roomId rooms with
  | none => []
  | some room =>
    room.filterMap fun p => if excludeHit exclude p.1 then none else some (p.1, ev)

/-- `detachFromRoom`. Returns the new state, the updated session value (the
source mutates the shared session object) and the emitted events. Note the
`if (!session.roomId) return` guard: a null or empty room code detaches
nothing. -/
def detachFromRoom (st : ServerState) (session : ClientSession) :
    ServerState × ClientSession × List (List Char × ServerEvent) :=
  match session.roomId with
  | none => (st, session, [])
  | some rid =>
    if rid.isEmpty then (st, session, []) else
    match alGet rid st.activeRooms with
    | none =>
      let session2 := { session with roomId := none }
      ({ st with sessions := alSet session.id session2 st.sessions }, session2, [])
    | some room =>
      let room2 := alDel session.id room
      let rooms2 :=
        if room2.isEmpty then alDel rid st.activeRooms
        else alSet rid room2 st.activeRooms
      let outs := broadcastToRoom rooms2 rid (ServerEvent.userLeft session.id) (some session.id)
      let session2 := { session with roomId := none }
      ({ sessions := alSet session.id session2 st.sessions, activeRooms := rooms2 }, session2, outs)

/-- `attachToRoom`: normalize the code, lazily create the Directory room, store
the session under its id and set `session.roomId` (the source stores a
reference, so the membership entry reflects the assignment too). -/
def attachToRoom (st : ServerState) (session : ClientSession) (roomId : List Char) :
    ServerState × ClientSession :=
  let normalizedId := jsToUpper (jsTrim roomId)
  let session2 := { session with roomId := some normalizedId }
  let room := (alGet normalizedId st.activeRooms).getD []
  let room2 := alSet session.id session2 room
  ({ sessions := alSet session.id session2 st.sessions,
     activeRooms := alSet normalizedId room2 st.activeRooms }, session2)

/-- `handleJoinMessage`. -/
def handleJoinMessage (st : ServerState) (session : ClientSession) (msg : JVal) :
    ServerState × List (List Char × ServerEvent) :=
  match jGet msg (cs "roomId") with
  | some (.str r) =>
    if r.isEmpty then (st, []) else
    let role : ParticipantRole :=
      match jGet msg (cs "role") with
      | some (.str s) => if s = cs "host" then .host else .guest
      | _ => .guest
    let displayName : Option (List Char) :=
      match jGet msg (cs "displayName") with
      | some (.str d) => if (jsTrim d).isEmpty then none else some (jsTrim d)
      | _ => none
    let detached :=
      if jsTruthyStr session.roomId then detachFromRoom st session
      else (st, session, [])
    let session2 := { detached.2.1 with displayName := displayName, role := role }
    let attached := attachToRoom detached.1 session2 r
    let st2 := attached.1
    let session3 := attached.2
    let normalizedId := jsToUpper (jsTrim r)
    let room := (alGet normalizedId st2.activeRooms).getD []
    let otherParticipants : List ParticipantSummary :=
      room.filterMap fun p =>
        if p.1 = session3.id then none
        else some { clientId := p.2.id, displayName := p.2.displayName, role := p.2.role }
    let roomStateOut := [(session3.id, ServerEvent.roomState otherParticipants)]
    let joinedOut := broadcastToRoom st2.activeRooms normalizedId
      (ServerEvent.userJoined
        { clientId := session3.id, displayName := session3.displayName, role := session3.role })
      (some session3.id)
    (st2, detached.2.2 ++ roomStateOut ++ joinedOut)
  | _ => (st, [])

/-- JS `room.get(message.targetClientId)`: membership keys are strings, so a
non-string target value never matches an entry. -/
def memberForTarget (room : List (List Char × ClientSession)) :
    Option JVal → Option ClientSession
  | some (.str t) => alGet t room
  | _ => none

/-- `handleSignalMessage`; emits at most one event and never changes state. -/
def handleSignalMessage (rooms : Directory) (session : ClientSession) (msg : JVal) :
    List (List Char × ServerEvent) :=
  match session.roomId with
  | none => []
  | some rid =>
    if rid.isEmpty then [] else
    if jvTruthy (jGet msg (cs "targetClientId")) = false then [] else
    match alGet rid rooms with
    | none => []
    | some room =>
      match memberForTarget room (jGet msg (cs "targetClientId")) with
      | none => []
      | some target =>
        [(target.id, ServerEvent.signal session.id ((jGet msg (cs "payload")).getD JVal.null))]

/-- `handleChatMessage`; the fresh id stands for the `makeId()` fallback and
`now` for `Date.now()`. -/
def handleChatMessage (rooms : Directory) (session : ClientSession) (msg : JVal)
    (freshMessageId : List Char) (now : Int) : List (List Char × ServerEvent) :=
  match session.roomId with
  | none => []
  | some rid =>
    if rid.isEmpty then [] else
    match jGet msg (cs "text") with
    | some (.str text) =>
      let messageId :=
        match jGet msg (cs "messageId") with
        | some (.str m) => if m.isEmpty then freshMessageId else m
        | _ => freshMessageId
      broadcastToRoom rooms rid (ServerEvent.chat session.id text messageId now) none
    | _ => []

/-- Connection open: register a fresh guest session and greet it. -/
def onOpen (st : ServerState) (clientId : List Char) :
    ServerState × List (List Char × ServerEvent) :=
  let session : ClientSession :=
    { id := clientId, roomId := none, displayName := none, role := .guest }
  ({ st with sessions := alSet clientId session st.sessions },
   [(clientId, ServerEvent.welcome clientId)])

/-- The websocket `onMessage` dispatcher of the mesh server: `none` stands for a
frame that `JSON.parse` rejected. -/
def onMessage (st : ServerState) (clientId : List Char) (frame : Option JVal)
    (freshMessageId : List Char) (now : Int) :
    ServerState × List (List Char × ServerEvent) :=
  match alGet clientId st.sessions with
  | none => (st, [])
  | some session =>
    match frame with
    | none => (st, [])
    | some payload =>
      if objLike payload = false then (st, []) else
      match jGet payload (cs "type") with
      | some (.str t) =>
        if t = cs "join" then handleJoinMessage st session payload
        else if t = cs "signal" then (st, handleSignalMessage st.activeRooms session payload)
        else if t = cs "chat" then
          (st, handleChatMessage st.activeRooms session payload freshMessageId now)
        else (st, [])
      | _ => (st, [])

/-- Connection close: detach from the current room and drop the session. -/
def onWsClose (st : ServerState) (clientId : List Char) :
    ServerState × List (List Char × ServerEvent) :=
  match alGet clientId st.sessions with
  | none => (st, [])
  | some session =>
    let detached := detachFromRoom st session
    ({ detached.1 with sessions := alDel clientId detached.1.sessions }, detached.2.2)

/-- Connection error: same state effect as close (the additional
`ws.close(1011)` attempt is transport-level). -/
def onWsError (st : ServerState) (clientId : List Char) :
    ServerState × List (List Char × ServerEvent) :=
  onWsClose st clientId

/-- One inbound connection-lifecycle event, with the fresh id and timestamp a
message handler may consume. -/
inductive InEvent
  | evOpen (clientId : List Char)
  | evMessage (clientId : List Char) (frame : Option JVal) (freshMessageId : List Char) (now : Int)
  | evClose (clientId : List Char)
  | evError (clientId : List Char)

def stepEvent (st : ServerState) : InEvent → ServerState × List (List Char × ServerEvent)
  | .evOpen cid => onOpen st cid
  | .evMessage cid frame fresh now => onMessage st cid frame fresh now
  | .evClose cid => onWsClose st cid
  | .evError cid => onWsError st cid

/-- Run a sequence of events from a state, accumulating every emitted event. -/
def runEvents (st : ServerState) :
    List InEvent → ServerState × List (List Char × ServerEvent)
  | [] => (st, [])
  | e :: rest =>
    let first := stepEvent st e
    let next := runEvents first.1 rest
    (next.1, first.2 ++ next.2)

/- ## Concrete fixtures used by the theorems below -/

/-- Recognises a `user-left` event carrying the given client id (used to count
deliveries without deciding equality of arbitrary events). -/
def evIsUserLeftOf (cid : List Char) : ServerEvent → Bool
  | .userLeft c => c == cid
  | _ => false

/-- A well-formed `join` frame naming a room code. -/
def joinFrame (code : List Char) : JVal :=
  JVal.obj [(cs "type", JVal.str (cs "join")), (cs "roomId", JVal.str code)]

def sampleRoom : RoomRecord :=
  { id := cs "AB23CD", createdAt := 0, hostToken := cs "t1", participants := [] }

def sampleStore : InMemoryRoomStore := { rooms := [(cs "AB23CD", sampleRoom)] }

/-- A Ledger store already holding the room every all-zero entropy sample
produces, so that each of the 20 generation attempts collides. -/
def fullStore : InMemoryRoomStore :=
  { rooms := [(cs "AAAAAA",
      { id := cs "AAAAAA", createdAt := 0, hostToken := cs "t", participants := [] })] }

def zeroEntropy : Nat → List Nat := fun _ => [0, 0, 0, 0, 0, 0]

/-- Client X joins with the whitespace-only room code `" "` (normalised to the
empty code) and then joins room `"B"`. -/
def c1Trace : List InEvent :=
  [ InEvent.evOpen (cs "X"),
    InEvent.evMessage (cs "X") (some (joinFrame (cs " "))) (cs "m1") 1,
    InEvent.evMessage (cs "X") (some (joinFrame (cs "B"))) (cs "m2") 2 ]

/-- Client P joins room A (the whitespace code `"  "`, normalised to the empty
code) and then joins room B (`"ROOMB"`). -/
def c5Trace : List InEvent :=
  [ InEvent.evOpen (cs "P"),
    InEvent.evMessage (cs "P") (some (joinFrame (cs "  "))) (cs "n1") 1,
    InEvent.evMessage (cs "P") (some (joinFrame (cs "ROOMB"))) (cs "n2") 2 ]

/-- Clients S and T both join the whitespace room code, landing in the same
Directory room (the empty code). -/
def c7Trace : List InEvent :=
  [ InEvent.evOpen (cs "S"),
    InEvent.evOpen (cs "T"),
    InEvent.evMessage (cs "S") (some (joinFrame (cs " "))) (cs "p1") 1,
    InEvent.evMessage (cs "T") (some (joinFrame (cs " "))) (cs "p2") 2 ]

/-- A signal from S to its room-mate T. -/
def c7Sig : JVal :=
  JVal.obj [(cs "type", JVal.str (cs "signal")),
            (cs "targetClientId", JVal.str (cs "T")),
            (cs "payload", JVal.num 7)]

def chatSession : ClientSession :=
  { id := cs "X", roomId := some (cs "B"), displayName := none, role := .guest }

def chatRooms : Directory := [(cs "B", [(cs "X", chatSession)])]

/-- A chat frame whose client-supplied `messageId` is the empty string. -/
def chatMsgEmptyId : JVal :=
  JVal.obj [(cs "type", JVal.str (cs "chat")),
            (cs "text", JVal.str (cs "hi")),
            (cs "messageId", JVal.str [])]

/-- A chat frame with a non-empty client-supplied `messageId`. -/
def chatMsgGoodId : JVal :=
  JVal.obj [(cs "type", JVal.str (cs "chat")),
            (cs "text", JVal.str (cs "yo")),
            (cs "messageId", JVal.str (cs "M1"))]

def detachSessionA : ClientSession :=
  { id := cs "A", roomId := some (cs "R"), displayName := none, role := .guest }

def detachSessionB : ClientSession :=
  { id := cs "Bb", roomId := some (cs "R"), displayName := none, role := .guest }

def detachState : ServerState :=
  { sessions := [(cs "A", detachSessionA), (cs "Bb", detachSessionB)],
    activeRooms := [(cs "R", [(cs "A", detachSessionA), (cs "Bb", detachSessionB)])] }

/- ## Helper lemmas -/

theorem alGet_alSet_self {α : Type} (k : List Char) (v : α) :
    ∀ l, alGet k (alSet k v l) = some v
  | [] => by simp [alGet, alSet]
  | p :: rest => by
    by_cases h : p.1 = k
    · simp [alSet, h, alGet]
    · simp [alSet, h, alGet, alGet_alSet_self k v rest]

theorem alGet_alDel_self {α : Type} (k : List Char) :
    ∀ l : List (List Char × α), alGet k (alDel k l) = none
  | [] => by simp [alGet, alDel]
  | p :: rest => by
    by_cases h : p.1 = k
    · simp [alDel, h, alGet_alDel_self k rest]
    · simp [alDel, h, alGet, alGet_alDel_self k rest]

theorem mem_alDel {α : Type} (k : List Char) (x : List Char × α) :
    ∀ l, x ∈ alDel k l → x ∈ l ∧ x.1 ≠ k
  | [] => by simp [alDel]
  | p :: rest => by
    by_cases h : p.1 = k
    · intro hx
      have := mem_alDel k x rest (by simpa [alDel, h] using hx)
      exact ⟨List.mem_cons_of_mem _ this.1, this.2⟩
    · intro hx
      rcases (by simpa [alDel, h] using hx : x = p ∨ x ∈ alDel k rest) with hxp | hxr
      · exact ⟨by simp [hxp], by simpa [hxp] using h⟩
      · have := mem_alDel k x rest hxr
        exact ⟨List.mem_cons_of_mem _ this.1, this.2⟩

theorem alKeys_alDel {α : Type} (k : List Char) :
    ∀ l : List (List Char × α), alKeys (alDel k l) = (alKeys l).filter (fun x => !(x == k))
  | [] => by simp [alDel, alKeys]
  | p :: rest => by
    have ih := alKeys_alDel k rest
    by_cases h : p.1 = k
    · have hb : (p.1 == k) = true := by simpa using h
      simp only [alDel, if_pos h, alKeys, List.map_cons, List.filter_cons, hb,
        Bool.not_true]
      simpa [alKeys] using ih
    · have hb : (p.1 == k) = false := by simpa using h
      simp only [alDel, if_neg h, alKeys, List.map_cons, List.filter_cons, hb,
        Bool.not_false]
      simpa [alKeys] using congrArg (List.cons p.1) ih

theorem alKeys_alSet_notMem {α : Type} (k : List Char) (v : α) :
    ∀ l, k ∉ alKeys l → alKeys (alSet k v l) = alKeys l ++ [k]
  | [], _ => by simp [alSet, alKeys]
  | p :: rest, h => by
    have hcons : alKeys (p :: rest) = p.1 :: alKeys rest := rfl
    rw [hcons] at h
    have hp : p.1 ≠ k := fun hpk => h (by rw [← hpk]; exact List.mem_cons_self _ _)
    have hrest : k ∉ alKeys rest := fun hk => h (List.mem_cons_of_mem _ hk)
    have ih := alKeys_alSet_notMem k v rest hrest
    simp only [alSet, if_neg hp]
    show p.1 :: alKeys (alSet k v rest) = alKeys (p :: rest) ++ [k]
    rw [ih, hcons]
    rfl

theorem filterMap_eq_map_of_mem {α β : Type} (f : α → Option β) (g : α → β) :
    ∀ l : List α, (∀ a ∈ l, f a = some (g a)) → l.filterMap f = l.map g
  | [], _ => by simp
  | a :: rest, h => by
    have := filterMap_eq_map_of_mem f g rest (fun x hx => h x (List.mem_cons_of_mem _ hx))
    simp [List.filterMap_cons, h a (List.mem_cons_self _ _), this]

theorem dropWhile_all_false {p : Char → Bool} :
    ∀ l : List Char, (∀ c ∈ l, p c = false) → l.dropWhile p = l
  | [], _ => rfl
  | c :: rest, h => by
    simp [List.dropWhile, h c (List.mem_cons_self _ _)]

theorem jsTrim_eq_self {l : List Char} (h : ∀ c ∈ l, isJsWs c = false) : jsTrim l = l := by
  unfold jsTrim
  rw [dropWhile_all_false l h,
    dropWhile_all_false l.reverse (fun c hc => h c (List.mem_reverse.mp hc)),
    List.reverse_reverse]

theorem jsToUpper_eq_self {l : List Char} (h : ∀ c ∈ l, Char.toUpper c = c) :
    jsToUpper l = l := by
  unfold jsToUpper
  rw [List.map_congr_left h]
  simp

theorem alphabet_char_facts :
    ∀ k, k < 31 →
      isJsWs (ROOM_ID_ALPHABET.getD k ' ') = false ∧
      Char.toUpper (ROOM_ID_ALPHABET.getD k ' ') = ROOM_ID_ALPHABET.getD k ' ' ∧
      ROOM_ID_ALPHABET.getD k ' ' ∈ ROOM_ID_ALPHABET := by decide

theorem alphabet_length : ROOM_ID_ALPHABET.length = 31 := by decide

theorem codeFromBytes_char_facts (bytes : List Nat) :
    ∀ c ∈ codeFromBytes bytes,
      isJsWs c = false ∧ Char.toUpper c = c ∧ c ∈ ROOM_ID_ALPHABET := by
  intro c hc
  simp only [codeFromBytes, List.mem_map, List.mem_range] at hc
  obtain ⟨i, _, rfl⟩ := hc
  exact alphabet_char_facts _ (by rw [alphabet_length]; exact Nat.mod_lt _ (by decide))

theorem normalizeRoomId_code (bytes : List Nat) :
    normalizeRoomId (codeFromBytes bytes) = codeFromBytes bytes := by
  unfold normalizeRoomId
  rw [jsTrim_eq_self (fun c hc => (codeFromBytes_char_facts bytes c hc).1)]
  exact jsToUpper_eq_self (fun c hc => (codeFromBytes_char_facts bytes c hc).2.1)

theorem codeFromBytes_length (bytes : List Nat) : (codeFromBytes bytes).length = 6 := by
  simp [codeFromBytes, ROOM_ID_LENGTH]

theorem genAux_spec (existing : List (List Char)) (entropy : Nat → List Nat) :
    ∀ fuel attempt code, genAux existing entropy attempt fuel = some code →
      code ∉ existing ∧ ∃ i, code = normalizeRoomId (codeFromBytes (entropy i))
  | 0, _, _, h => by simp [genAux] at h
  | Nat.succ fuel, attempt, code, h => by
    by_cases hmem : normalizeRoomId (codeFromBytes (entropy attempt)) ∈ existing
    · exact genAux_spec existing entropy fuel (attempt + 1) code
        (by simpa [genAux, hmem] using h)
    · have : normalizeRoomId (codeFromBytes (entropy attempt)) = code := by
        simpa [genAux, hmem] using h
      exact ⟨this ▸ hmem, attempt, this.symm⟩

theorem genAux_none (existing : List (List Char)) (entropy : Nat → List Nat) :
    ∀ fuel attempt,
      (∀ i, attempt ≤ i → i < attempt + fuel →
        normalizeRoomId (codeFromBytes (entropy i)) ∈ existing) →
      genAux existing entropy attempt fuel = none
  | 0, _, _ => by simp [genAux]
  | Nat.succ fuel, attempt, h => by
    have hmem : normalizeRoomId (codeFromBytes (entropy attempt)) ∈ existing :=
      h attempt (Nat.le_refl _) (by omega)
    simp only [genAux, hmem, if_pos]
    exact genAux_none existing entropy fuel (attempt + 1) (fun i h1 h2 => h i (by omega) (by omega))

theorem createRoom_fresh {store : InMemoryRoomStore} {entropy : Nat → List Nat}
    {tok : List Char} {now : Int} {store2 : InMemoryRoomStore} {res : CreateRoomResult}
    (h : createRoom store entropy tok now = some (store2, res)) :
    res.roomId ∉ alKeys store.rooms ∧
    alKeys store2.rooms = alKeys store.rooms ++ [res.roomId] := by
  unfold createRoom at h
  rcases hg : generateRoomId (alKeys store.rooms) entropy with _ | code
  · rw [hg] at h; simp at h
  · rw [hg] at h
    have hspec := genAux_spec (alKeys store.rooms) entropy 20 0 code hg
    simp only [Option.some.injEq, Prod.mk.injEq] at h
    obtain ⟨hstore, hres⟩ := h
    have hid : res.roomId = code := by rw [← hres]
    subst hid
    refine ⟨hspec.1, ?_⟩
    rw [← hstore]
    exact alKeys_alSet_notMem _ _ _ hspec.1

theorem runCreates_keys_mono :
    ∀ (calls : List ((Nat → List Nat) × List Char × Int)) (store : InMemoryRoomStore)
      (x : List Char), x ∈ alKeys store.rooms → x ∈ alKeys (runCreates store calls).1.rooms
  | [], _, _, hx => hx
  | call :: rest, store, x, hx => by
    rcases hc : createRoom store call.1 call.2.1 call.2.2 with _ | p
    · simpa [runCreates, hc] using runCreates_keys_mono rest store x hx
    · obtain ⟨store2, res⟩ := p
      have hfresh := createRoom_fresh hc
      have hx2 : x ∈ alKeys store2.rooms := by
        rw [hfresh.2]
        exact List.mem_append_left _ hx
      simpa [runCreates, hc] using runCreates_keys_mono rest store2 x hx2

theorem runCreates_fresh :
    ∀ (calls : List ((Nat → List Nat) × List Char × Int)) (store : InMemoryRoomStore),
      ((runCreates store calls).2.Nodup ∧
       ∀ x ∈ (runCreates store calls).2,
         x ∉ alKeys store.rooms ∧ x ∈ alKeys (runCreates store calls).1.rooms)
  | [], store => by simp [runCreates]
  | call :: rest, store => by
    rcases hc : createRoom store call.1 call.2.1 call.2.2 with _ | p
    · simpa [runCreates, hc] using runCreates_fresh rest store
    · obtain ⟨store2, res⟩ := p
      have hfresh := createRoom_fresh hc
      have ih := runCreates_fresh rest store2
      have hsub : ∀ y, y ∈ alKeys store.rooms → y ∈ alKeys store2.rooms := by
        intro y hy
        rw [hfresh.2]
        exact List.mem_append_left _ hy
      have hself : res.roomId ∈ alKeys store2.rooms := by
        rw [hfresh.2]
        exact List.mem_append_right _ (List.mem_singleton.mpr rfl)
      constructor
      · simp only [runCreates, hc]
        refine List.nodup_cons.mpr ⟨?_, ih.1⟩
        intro hmem
        exact ((ih.2 res.roomId hmem).1) hself
      · intro x hx
        simp only [runCreates, hc, List.mem_cons] at hx
        simp only [runCreates, hc]
        rcases hx with rfl | hx
        · exact ⟨hfresh.1, runCreates_keys_mono rest store2 res.roomId hself⟩
        · have h2 := ih.2 x hx
          exact ⟨fun hmem => h2.1 (hsub x hmem), h2.2⟩

/- ## Claim theorems -/

/-- C1 (code bug evaluation): after the reachable trace
open X; join " "; join "B", client X's session has `roomId = "B"` yet X is
still a member of Directory room `""` (created by normalising the whitespace
code) as well as of room `"B"` — two Directory rooms hold the same session,
because the `if (wasInRoom)` truthiness test of `handleJoinMessage` skips the
detach when the current room code is the empty string. -/
theorem session_in_two_rooms_bug :
    (alGet [] (runEvents initialState c1Trace).1.activeRooms).map alKeys = some [cs "X"] ∧
    (alGet (cs "B") (runEvents initialState c1Trace).1.activeRooms).map alKeys = some [cs "X"] ∧
    (alGet (cs "X") (runEvents initialState c1Trace).1.sessions).map ClientSession.roomId
      = some (some (cs "B")) ∧
    ([] : List Char) ≠ cs "B" := by
  refine ⟨rfl, rfl, rfl, by decide⟩

/-- C5 (code bug evaluation): the session joins room A (the whitespace code,
normalised to `""`) and then room B (`"ROOMB"`); afterwards its `roomId` is B
and B's membership holds it, but A's membership still holds it and A still
exists in the Directory, contradicting the claim that a second join removes
the session from the prior room. -/
theorem rejoin_keeps_stale_membership_bug :
    (alGet (cs "P") (runEvents initialState c5Trace).1.sessions).map ClientSession.roomId
      = some (some (cs "ROOMB")) ∧
    (alGet (cs "ROOMB") (runEvents initialState c5Trace).1.activeRooms).map alKeys
      = some [cs "P"] ∧
    (alGet [] (runEvents initialState c5Trace).1.activeRooms).map alKeys = some [cs "P"] := by
  exact ⟨rfl, rfl, rfl⟩

/-- C7 (code bug evaluation): S and T share the Directory room with the empty
code and T is a current member of S's room, yet a signal from S addressed to T
delivers nothing: the `if (!session.roomId)` truthiness test of
`handleSignalMessage` treats the empty room code as no room at all. -/
theorem signal_in_empty_code_room_bug :
    (alGet [] (runEvents initialState c7Trace).1.activeRooms).map alKeys
      = some [cs "S", cs "T"] ∧
    (alGet (cs "S") (runEvents initialState c7Trace).1.sessions).map ClientSession.roomId
      = some (some []) ∧
    stepEvent (runEvents initialState c7Trace).1
        (InEvent.evMessage (cs "S") (some c7Sig) (cs "q") 9)
      = ((runEvents initialState c7Trace).1, []) := by
  exact ⟨rfl, rfl, rfl⟩

/-- C4 (counterexample): a session in room B sends a chat whose client-supplied
`messageId` is present and textual but empty; the emitted event carries the
freshly minted id `F1`, not the supplied empty id, because
`message.messageId && typeof message.messageId === "string"` is falsy for the
empty string. -/
theorem chat_empty_messageId_cex :
    jGet chatMsgEmptyId (cs "messageId") = some (JVal.str []) ∧
    handleChatMessage chatRooms chatSession chatMsgEmptyId (cs "F1") 5
      = [(cs "X", ServerEvent.chat (cs "X") (cs "hi") (cs "F1") 5)] ∧
    cs "F1" ≠ [] := by
  exact ⟨rfl, rfl, by decide⟩

/-- C4 (amended): a chat from a session with no current room is dropped; a chat
with textual text from a session whose current room code is non-empty and whose
room exists is delivered exactly to the members of that room in membership
order (the sender being one of them), with the client-supplied `messageId` used
verbatim when it is present, textual and non-empty, and a freshly minted id
otherwise. -/
theorem chat_broadcast_to_room :
    (∀ rooms session msg fresh now, session.roomId = none →
       handleChatMessage rooms session msg fresh now = []) ∧
    (∀ rooms session msg fresh now rid room text,
       session.roomId = some rid → rid ≠ [] →
       alGet rid rooms = some room →
       jGet msg (cs "text") = some (JVal.str text) →
       ((∀ m, jGet msg (cs "messageId") = some (JVal.str m) → m ≠ [] →
          handleChatMessage rooms session msg fresh now =
            room.map (fun p => (p.1, ServerEvent.chat session.id text m now))) ∧
        ((∀ m, jGet msg (cs "messageId") = some (JVal.str m) → m = []) →
          handleChatMessage rooms session msg fresh now =
            room.map (fun p => (p.1, ServerEvent.chat session.id text fresh now))))) := by
  constructor
  · intro rooms session msg fresh now h
    simp [handleChatMessage, h]
  · intro rooms session msg fresh now rid room text hrid hne hroom htext
    have hemp : rid.isEmpty = false := by
      cases rid with
      | nil => exact absurd rfl hne
      | cons c l => rfl
    have hbr : ∀ ev, broadcastToRoom rooms rid ev none = room.map (fun p => (p.1, ev)) := by
      intro ev
      unfold broadcastToRoom
      rw [hroom]
      exact filterMap_eq_map_of_mem _ _ room (fun a _ => by simp [excludeHit])
    constructor
    · intro m hm hmne
      have hmemp : m.isEmpty = false := by
        cases m with
        | nil => exact absurd rfl hmne
        | cons c l => rfl
      simp only [handleChatMessage, hrid, hemp, htext, hm, hmemp]
      simpa using hbr (ServerEvent.chat session.id text m now)
    · intro hfresh
      simp only [handleChatMessage, hrid, hemp, htext]
      rcases hmid : jGet msg (cs "messageId") with _ | v
      · simpa using hbr (ServerEvent.chat session.id text fresh now)
      · cases v with
        | str m =>
          have : m = [] := hfresh m hmid
          subst this
          simpa using hbr (ServerEvent.chat session.id text fresh now)
        | null => simpa using hbr (ServerEvent.chat session.id text fresh now)
        | bool b => simpa using hbr (ServerEvent.chat session.id text fresh now)
        | num n => simpa using hbr (ServerEvent.chat session.id text fresh now)
        | arr xs => simpa using hbr (ServerEvent.chat session.id text fresh now)
        | obj fs => simpa using hbr (ServerEvent.chat session.id text fresh now)

/-- C4 (witness): the amended theorem applied to a concrete room and a chat
carrying the non-empty client id `M1`, which is echoed verbatim to the room's
single member. -/
theorem chat_broadcast_to_room_witness :
    chatSession.roomId = some (cs "B") ∧
    alGet (cs "B") chatRooms = some [(cs "X", chatSession)] ∧
    jGet chatMsgGoodId (cs "text") = some (JVal.str (cs "yo")) ∧
    handleChatMessage chatRooms chatSession chatMsgGoodId (cs "F2") 6
      = [(cs "X", ServerEvent.chat (cs "X") (cs "yo") (cs "M1") 6)] := by
  refine ⟨rfl, rfl, rfl, ?_⟩
  have h := (chat_broadcast_to_room.2 chatRooms chatSession chatMsgGoodId (cs "F2") 6
    (cs "B") [(cs "X", chatSession)] (cs "yo") rfl (by decide) rfl rfl).1
    (cs "M1") rfl (by decide)
  simpa using h

theorem countP_eq_one_of_nodup (m : List Char) :
    ∀ l : List (List Char), l.Nodup → m ∈ l → l.countP (fun k => k == m) = 1
  | [], _, hm => absurd hm (List.not_mem_nil m)
  | a :: l, hnd, hm => by
    have hnd2 := List.nodup_cons.mp hnd
    rcases List.mem_cons.mp hm with rfl | hml
    · have hzero : l.countP (fun k => k == m) = 0 := by
        rw [List.countP_eq_zero]
        intro k hk
        simp only [beq_iff_eq]
        intro hkm
        exact hnd2.1 (hkm ▸ hk)
      simp [List.countP_cons, hzero]
    · have ham : (a == m) = false := by
        simp only [beq_eq_false_iff_ne]
        intro ham
        exact hnd2.1 (ham ▸ hml)
      have := countP_eq_one_of_nodup m l hnd2.2 hml
      simp [List.countP_cons, ham, this]

theorem detachFromRoom_outs (st : ServerState) (session : ClientSession) (rid : List Char)
    (room : List (List Char × ClientSession))
    (hrid : session.roomId = some rid) (hemp : rid.isEmpty = false)
    (hroom : alGet rid st.activeRooms = some room) :
    (detachFromRoom st session).2.2 =
      if (alDel session.id room).isEmpty then []
      else (alDel session.id room).map
        (fun p => (p.1, ServerEvent.userLeft session.id)) := by
  by_cases h2 : (alDel session.id room).isEmpty
  · rw [if_pos h2]
    simp [detachFromRoom, hrid, hemp, hroom, h2, broadcastToRoom, alGet_alDel_self]
  · rw [if_neg h2]
    have hstep : (detachFromRoom st session).2.2
        = (alDel session.id room).filterMap
            (fun p => if excludeHit (some session.id) p.1 then none
                      else some (p.1, ServerEvent.userLeft session.id)) := by
      simp [detachFromRoom, hrid, hemp, hroom, h2, broadcastToRoom, alGet_alSet_self]
    rw [hstep]
    refine filterMap_eq_map_of_mem _ _ _ ?_
    intro a ha
    have hane := (mem_alDel session.id a room ha).2
    have hb : (a.1 == session.id) = false := beq_eq_false_iff_ne.mpr hane
    simp [excludeHit, hb]

/-- C6: when a session is detached from its room (any trigger calls
`detachFromRoom`; a removal happens when the session's room code is a
non-empty key of the Directory), the emitted events are exactly one
`user-left` carrying the departing session's id per member remaining after the
removal, in membership order; the departing session receives nothing; and if
nobody remains, nothing is emitted. -/
theorem detach_user_left_exactly_once :
    ∀ st session rid room,
      session.roomId = some rid → rid ≠ [] →
      alGet rid st.activeRooms = some room →
      (alKeys room).Nodup →
      ((alKeys (alDel session.id room) = [] → (detachFromRoom st session).2.2 = []) ∧
       (∀ m ∈ alKeys (alDel session.id room),
          (detachFromRoom st session).2.2.countP
            (fun o => o.1 == m && evIsUserLeftOf session.id o.2) = 1) ∧
       (∀ e, (session.id, e) ∉ (detachFromRoom st session).2.2) ∧
       (∀ o ∈ (detachFromRoom st session).2.2,
          o.2 = ServerEvent.userLeft session.id ∧ o.1 ∈ alKeys (alDel session.id room))) := by
  intro st session rid room hrid hne hroom hnodup
  have hemp : rid.isEmpty = false := by
    cases rid with
    | nil => exact absurd rfl hne
    | cons c l => rfl
  have houts := detachFromRoom_outs st session rid room hrid hemp hroom
  by_cases h2 : (alDel session.id room).isEmpty
  · have hnil : alDel session.id room = [] := by
      cases halt : alDel session.id room with
      | nil => rfl
      | cons p l => rw [halt] at h2; exact absurd h2 (by simp)
    rw [houts, if_pos h2]
    refine ⟨fun _ => rfl, ?_, ?_, ?_⟩
    · intro m hm
      rw [hnil] at hm
      exact absurd hm (List.not_mem_nil m)
    · intro e
      exact List.not_mem_nil _
    · intro o ho
      exact absurd ho (List.not_mem_nil o)
  · rw [houts, if_neg h2]
    have hkeysnd : (alKeys (alDel session.id room)).Nodup := by
      rw [alKeys_alDel]
      exact List.Nodup.filter _ hnodup
    refine ⟨?_, ?_, ?_, ?_⟩
    · intro hkeys
      have : alDel session.id room = [] := by
        cases halt : alDel session.id room with
        | nil => rfl
        | cons p l => rw [halt] at hkeys; exact absurd hkeys (by simp [alKeys])
      rw [this]
      rfl
    · intro m hm
      rw [List.countP_map]
      have hfun : ((fun o : List Char × ServerEvent => o.1 == m && evIsUserLeftOf session.id o.2) ∘
          (fun p : List Char × ClientSession => (p.1, ServerEvent.userLeft session.id))) =
          fun p : List Char × ClientSession => p.1 == m := by
        funext p
        simp [evIsUserLeftOf, Function.comp]
      rw [hfun]
      have hpairs : (alDel session.id room).countP (fun p => p.1 == m)
          = (alKeys (alDel session.id room)).countP (fun k => k == m) := by
        rw [alKeys, List.countP_map]
        rfl
      rw [hpairs]
      exact countP_eq_one_of_nodup m _ hkeysnd hm
    · intro e hmem
      rcases List.mem_map.mp hmem with ⟨p, hp, heq⟩
      have := (mem_alDel session.id p room hp).2
      exact this (congrArg Prod.fst heq)
    · intro o ho
      rcases List.mem_map.mp ho with ⟨p, hp, heq⟩
      refine ⟨by rw [← heq], ?_⟩
      rw [← heq]
      exact List.mem_map.mpr ⟨p, hp, rfl⟩

/-- C6 (witness): session A detaches from room R shared with Bb; Bb gets the
single `user-left{A}` event and A gets nothing. -/
theorem detach_user_left_exactly_once_witness :
    detachSessionA.roomId = some (cs "R") ∧
    alGet (cs "R") detachState.activeRooms
      = some [(cs "A", detachSessionA), (cs "Bb", detachSessionB)] ∧
    (detachFromRoom detachState detachSessionA).2.2.countP
      (fun o => o.1 == cs "Bb" && evIsUserLeftOf detachSessionA.id o.2) = 1 := by
  refine ⟨rfl, rfl, ?_⟩
  exact (detach_user_left_exactly_once detachState detachSessionA (cs "R")
    [(cs "A", detachSessionA), (cs "Bb", detachSessionB)] rfl (by decide) rfl
    (by decide)).2.1 (cs "Bb") (by decide)

theorem jsTrim_isEmpty_false_of_normalize (raw : List Char)
    (h : normalizeRoomId raw ≠ []) : (jsTrim raw).isEmpty = false := by
  cases ht : jsTrim raw with
  | nil => exact absurd (by simp [normalizeRoomId, jsToUpper, ht]) h
  | cons c l => rfl

theorem hostTokenMatches_iff (supplied : Option (List Char)) (actual : List Char)
    (h : actual ≠ []) : hostTokenMatches supplied actual = true ↔ supplied = some actual := by
  cases supplied with
  | none => simp [hostTokenMatches]
  | some t =>
    simp only [hostTokenMatches, Bool.and_eq_true, beq_iff_eq, Option.some.injEq,
      Bool.not_eq_true']
    constructor
    · exact fun hp => hp.2
    · rintro rfl
      refine ⟨?_, rfl⟩
      cases t with
      | nil => exact absurd rfl h
      | cons c l => rfl

theorem joinRoom_ok (store : InMemoryRoomStore) (raw : List Char) (room : RoomRecord)
    (opts : JoinRoomOptions) (fresh : List Char) (now : Int)
    (hne : (jsTrim raw).isEmpty = false)
    (hroom : alGet (normalizeRoomId raw) store.rooms = some room)
    (hpass : joinRoomRole opts ≠ ParticipantRole.host ∨
      hostTokenMatches opts.hostToken room.hostToken = true) :
    joinRoom store (JsString.str raw) opts fresh now =
      Except.ok (joinOkStore store raw room opts fresh now,
                 joinOkResult raw opts fresh now) := by
  have hcond : ¬(joinRoomRole opts = ParticipantRole.host ∧
      hostTokenMatches opts.hostToken room.hostToken = false) := by
    rcases hpass with h | h
    · exact fun hc => h hc.1
    · exact fun hc => by rw [h] at hc; exact absurd hc.2 (by simp)
  simp [joinRoom, hne, hroom, if_neg hcond, joinOkStore, joinOkRoom,
    joinOkParticipant, joinOkResult]

theorem joinRoom_invalid (store : InMemoryRoomStore) (raw : List Char) (room : RoomRecord)
    (opts : JoinRoomOptions) (fresh : List Char) (now : Int)
    (hne : (jsTrim raw).isEmpty = false)
    (hroom : alGet (normalizeRoomId raw) store.rooms = some room)
    (hrole : joinRoomRole opts = ParticipantRole.host)
    (hfail : hostTokenMatches opts.hostToken room.hostToken = false) :
    joinRoom store (JsString.str raw) opts fresh now
      = Except.error RoomStoreError.invalidHostToken := by
  simp [joinRoom, hne, hroom, if_pos (And.intro hrole hfail)]

/-- C2: joining an existing Ledger room with role exactly `host` succeeds
precisely when the supplied host token equals the room's (opaque, hence
non-empty) token; with any other supplied value — different token, empty
string, or absent — the call returns `InvalidHostToken`, and since the error
is raised before the mutation, no participant is added; with role guest (or no
role) the token is never consulted and the join always succeeds. -/
theorem joinRoom_host_token_check :
    (∀ store raw room opts fresh now,
      alGet (normalizeRoomId raw) store.rooms = some room →
      normalizeRoomId raw ≠ [] →
      opts.role = some (cs "host") →
      room.hostToken ≠ [] →
      (((∃ s2 res, joinRoom store (JsString.str raw) opts fresh now = Except.ok (s2, res)) ↔
          opts.hostToken = some room.hostToken) ∧
       (opts.hostToken ≠ some room.hostToken →
          joinRoom store (JsString.str raw) opts fresh now
            = Except.error RoomStoreError.invalidHostToken))) ∧
    (∀ store raw room opts fresh now,
      alGet (normalizeRoomId raw) store.rooms = some room →
      normalizeRoomId raw ≠ [] →
      (opts.role = none ∨ opts.role = some (cs "guest")) →
      ∃ s2 res, joinRoom store (JsString.str raw) opts fresh now = Except.ok (s2, res)) := by
  constructor
  · intro store raw room opts fresh now hroom hnorm hrole htok
    have hne := jsTrim_isEmpty_false_of_normalize raw hnorm
    have hrolehost : joinRoomRole opts = ParticipantRole.host := by
      simp [joinRoomRole, hrole]
    by_cases hmatch : hostTokenMatches opts.hostToken room.hostToken = true
    · have hsupp : opts.hostToken = some room.hostToken :=
        (hostTokenMatches_iff _ _ htok).mp hmatch
      refine ⟨⟨fun _ => hsupp, fun _ => ?_⟩, fun hc => absurd hsupp hc⟩
      exact ⟨_, _, joinRoom_ok store raw room opts fresh now hne hroom (Or.inr hmatch)⟩
    · have hfail : hostTokenMatches opts.hostToken room.hostToken = false := by
        cases h : hostTokenMatches opts.hostToken room.hostToken
        · rfl
        · exact absurd h hmatch
      have herr := joinRoom_invalid store raw room opts fresh now hne hroom hrolehost hfail
      refine ⟨⟨?_, ?_⟩, fun _ => herr⟩
      · rintro ⟨s2, res, hok⟩
        rw [herr] at hok
        exact absurd hok (by simp)
      · intro hsupp
        exact absurd ((hostTokenMatches_iff _ _ htok).mpr hsupp) hmatch
  · intro store raw room opts fresh now hroom hnorm hrole
    have hne := jsTrim_isEmpty_false_of_normalize raw hnorm
    have hguest : joinRoomRole opts = ParticipantRole.guest := by
      rcases hrole with h | h
      · simp [joinRoomRole, h]
      · simp [joinRoomRole, h]
        decide
    exact ⟨_, _, joinRoom_ok store raw room opts fresh now hne hroom
      (Or.inl (by rw [hguest]; exact fun hc => ParticipantRole.noConfusion hc))⟩

/-- C2 (witness): joining the sample room `AB23CD` as host with its token `t1`
succeeds, applied through the host-token theorem. -/
theorem joinRoom_host_token_check_witness :
    alGet (normalizeRoomId (cs "ab23cd")) sampleStore.rooms = some sampleRoom ∧
    (∃ s2 res, joinRoom sampleStore (JsString.str (cs "ab23cd"))
      { role := some (cs "host"), hostToken := some (cs "t1") } (cs "p1") 5
        = Except.ok (s2, res)) := by
  refine ⟨by decide, ?_⟩
  exact ((joinRoom_host_token_check.1 sampleStore (cs "ab23cd") sampleRoom
    { role := some (cs "host"), hostToken := some (cs "t1") } (cs "p1") 5
    (by decide) (by decide) rfl (by decide)).1).mpr rfl

/-- C10: joining an existing Ledger room with any role option other than the
exact string `host` — absent or an arbitrary string such as `admin` — performs
no host-token check (it succeeds whatever the `hostToken` option holds), and
both the returned projection and the stored participant carry role `guest`. -/
theorem joinRoom_nonhost_is_guest :
    ∀ store raw room opts fresh now,
      alGet (normalizeRoomId raw) store.rooms = some room →
      normalizeRoomId raw ≠ [] →
      opts.role ≠ some (cs "host") →
      (joinRoom store (JsString.str raw) opts fresh now
        = Except.ok (joinOkStore store raw room opts fresh now,
                     joinOkResult raw opts fresh now) ∧
       (joinOkResult raw opts fresh now).role = ParticipantRole.guest ∧
       alGet (normalizeRoomId raw) (joinOkStore store raw room opts fresh now).rooms
         = some (joinOkRoom room opts fresh now) ∧
       alGet fresh (joinOkRoom room opts fresh now).participants
         = some (joinOkParticipant opts fresh now) ∧
       (joinOkParticipant opts fresh now).role = ParticipantRole.guest) := by
  intro store raw room opts fresh now hroom hnorm hrole
  have hne := jsTrim_isEmpty_false_of_normalize raw hnorm
  have hguest : joinRoomRole opts = ParticipantRole.guest := by
    unfold joinRoomRole
    cases hr : opts.role with
    | none => rfl
    | some r =>
      have hrne : ¬(r = cs "host") := fun hcontra => hrole (by rw [hr, hcontra])
      simp [hrne]
  refine ⟨?_, ?_, ?_, ?_, ?_⟩
  · exact joinRoom_ok store raw room opts fresh now hne hroom
      (Or.inl (by rw [hguest]; exact fun hc => ParticipantRole.noConfusion hc))
  · simp [joinOkResult, hguest]
  · simp only [joinOkStore]
    exact alGet_alSet_self _ _ _
  · simp only [joinOkRoom]
    exact alGet_alSet_self _ _ _
  · simp [joinOkParticipant, hguest]

/-- C10 (witness): joining the sample room with role `admin` and no token
succeeds and stores a guest participant. -/
theorem joinRoom_nonhost_is_guest_witness :
    alGet (normalizeRoomId (cs "AB23CD")) sampleStore.rooms = some sampleRoom ∧
    joinRoom sampleStore (JsString.str (cs "AB23CD")) { role := some (cs "admin") }
        (cs "p2") 7
      = Except.ok (joinOkStore sampleStore (cs "AB23CD") sampleRoom
          { role := some (cs "admin") } (cs "p2") 7,
        joinOkResult (cs "AB23CD") { role := some (cs "admin") } (cs "p2") 7) ∧
    (joinOkResult (cs "AB23CD") { role := some (cs "admin") } (cs "p2") 7).role
      = ParticipantRole.guest := by
  have h := joinRoom_nonhost_is_guest sampleStore (cs "AB23CD") sampleRoom
    { role := some (cs "admin") } (cs "p2") 7 (by decide) (by decide) (by decide)
  exact ⟨by decide, h.1, h.2.1⟩

/-- C8: `joinRoom` resolves the room only through the trimmed, upper-cased
code: a non-string code, a whitespace-only code, and any code whose normalised
form is not a Ledger key produce `RoomNotFound` (raised before any mutation,
so the store is unchanged), while any casing of an existing code reaches the
room — the result is then never `RoomNotFound`. -/
theorem joinRoom_normalized_lookup :
    (∀ store opts fresh now, ∃ e,
      joinRoom store JsString.notAString opts fresh now
        = Except.error (RoomStoreError.roomNotFound e)) ∧
    (∀ store raw opts fresh now, jsTrim raw = [] →
      joinRoom store (JsString.str raw) opts fresh now
        = Except.error (RoomStoreError.roomNotFound raw)) ∧
    (∀ store raw opts fresh now, alGet (normalizeRoomId raw) store.rooms = none →
      ∃ e, joinRoom store (JsString.str raw) opts fresh now
        = Except.error (RoomStoreError.roomNotFound e)) ∧
    (∀ store raw room opts fresh now,
      alGet (normalizeRoomId raw) store.rooms = some room →
      normalizeRoomId raw ≠ [] →
      ∀ e, joinRoom store (JsString.str raw) opts fresh now
        ≠ Except.error (RoomStoreError.roomNotFound e)) := by
  refine ⟨?_, ?_, ?_, ?_⟩
  · intro store opts fresh now
    exact ⟨[], rfl⟩
  · intro store raw opts fresh now h
    simp [joinRoom, h]
  · intro store raw opts fresh now h
    cases ht : (jsTrim raw).isEmpty with
    | true => exact ⟨raw, by simp [joinRoom, ht]⟩
    | false => exact ⟨normalizeRoomId raw, by simp [joinRoom, ht, h]⟩
  · intro store raw room opts fresh now hroom hnorm e
    have hne := jsTrim_isEmpty_false_of_normalize raw hnorm
    by_cases hcond : joinRoomRole opts = ParticipantRole.host ∧
        hostTokenMatches opts.hostToken room.hostToken = false
    · rw [joinRoom_invalid store raw room opts fresh now hne hroom hcond.1 hcond.2]
      simp
    · have hpass : joinRoomRole opts ≠ ParticipantRole.host ∨
          hostTokenMatches opts.hostToken room.hostToken = true := by
        by_cases hr : joinRoomRole opts = ParticipantRole.host
        · cases hb : hostTokenMatches opts.hostToken room.hostToken with
          | false => exact absurd ⟨hr, hb⟩ hcond
          | true => exact Or.inr rfl
        · exact Or.inl hr
      rw [joinRoom_ok store raw room opts fresh now hne hroom hpass]
      simp

/-- C8 (witness): the lower-cased, space-padded code `" ab23cd "` still finds
the sample room, so the join does not end in `RoomNotFound`. -/
theorem joinRoom_normalized_lookup_witness :
    alGet (normalizeRoomId (cs " ab23cd ")) sampleStore.rooms = some sampleRoom ∧
    joinRoom sampleStore (JsString.str (cs " ab23cd ")) {} (cs "p3") 8
      ≠ Except.error (RoomStoreError.roomNotFound (cs "AB23CD")) := by
  refine ⟨by decide, ?_⟩
  exact joinRoom_normalized_lookup.2.2.2 sampleStore (cs " ab23cd ") sampleRoom {}
    (cs "p3") 8 (by decide) (by decide) (cs "AB23CD")

theorem handleJoinMessage_noop (st : ServerState) (session : ClientSession) (msg : JVal)
    (h : ∀ r, jGet msg (cs "roomId") = some (JVal.str r) → r = []) :
    handleJoinMessage st session msg = (st, []) := by
  unfold handleJoinMessage
  cases hr : jGet msg (cs "roomId") with
  | none => rfl
  | some v =>
    cases v with
    | str r =>
      have := h r hr
      subst this
      simp
    | null => rfl
    | bool b => rfl
    | num n => rfl
    | arr xs => rfl
    | obj fs => rfl

theorem handleSignalMessage_noop (rooms : Directory) (session : ClientSession) (msg : JVal)
    (h : jsTruthyStr session.roomId = false ∨
         jvTruthy (jGet msg (cs "targetClientId")) = false ∨
         (∀ rid, session.roomId = some rid → alGet rid rooms = none) ∨
         (∀ rid room, session.roomId = some rid → alGet rid rooms = some room →
            memberForTarget room (jGet msg (cs "targetClientId")) = none)) :
    handleSignalMessage rooms session msg = [] := by
  unfold handleSignalMessage
  cases hrid : session.roomId with
  | none => rfl
  | some rid =>
    cases hemp : rid.isEmpty with
    | true => simp [hemp]
    | false =>
      simp only [hemp, Bool.false_eq_true, if_false]
      cases htr : jvTruthy (jGet msg (cs "targetClientId")) with
      | false => simp
      | true =>
        simp only [htr, if_neg (by simp : ¬(true = false))]
        cases hroom : alGet rid rooms with
        | none => simp [hroom]
        | some room =>
          rcases h with h1 | h2 | h3 | h4
          · rw [hrid] at h1
            simp [jsTruthyStr, hemp] at h1
          · rw [h2] at htr
            exact absurd htr (by simp)
          · rw [h3 rid hrid] at hroom
            exact absurd hroom (by simp)
          · simp [hroom, h4 rid room hrid hroom]

theorem handleChatMessage_noop (rooms : Directory) (session : ClientSession) (msg : JVal)
    (fresh : List Char) (now : Int)
    (h : jsTruthyStr session.roomId = false ∨
         (∀ txt, jGet msg (cs "text") ≠ some (JVal.str txt))) :
    handleChatMessage rooms session msg fresh now = [] := by
  unfold handleChatMessage
  cases hrid : session.roomId with
  | none => rfl
  | some rid =>
    cases hemp : rid.isEmpty with
    | true => simp [hemp]
    | false =>
      simp only [hemp, Bool.false_eq_true, if_false]
      rcases h with h1 | h2
      · rw [hrid] at h1
        simp [jsTruthyStr, hemp] at h1
      · cases htext : jGet msg (cs "text") with
        | none => rfl
        | some v =>
          cases v with
          | str s => exact absurd htext (h2 s)
          | null => rfl
          | bool b => rfl
          | num n => rfl
          | arr xs => rfl
          | obj fs => rfl

/-- C9: for every inbound real-time frame, an unparseable frame, a frame that
parses to a non-object, a recognised object with an unrecognised (or missing)
`type` discriminator, and a recognised handler whose preconditions fail (a
join without a usable room code; a signal with no truthy current room, no
truthy target, an absent Directory room or a target that is not a member; a
chat with no truthy current room or non-string text) all leave the state
untouched and send nothing to anyone — the dispatch is a total function, so no
exception escapes it. -/
theorem onMessage_malformed_noop :
    ∀ st cid fresh now,
    (onMessage st cid none fresh now = (st, [])) ∧
    (∀ v, objLike v = false → onMessage st cid (some v) fresh now = (st, [])) ∧
    (∀ v, (∀ t, jGet v (cs "type") = some (JVal.str t) →
        t ≠ cs "join" ∧ t ≠ cs "signal" ∧ t ≠ cs "chat") →
      onMessage st cid (some v) fresh now = (st, [])) ∧
    (∀ v, jGet v (cs "type") = some (JVal.str (cs "join")) →
      (∀ r, jGet v (cs "roomId") = some (JVal.str r) → r = []) →
      onMessage st cid (some v) fresh now = (st, [])) ∧
    (∀ v session, alGet cid st.sessions = some session →
      jGet v (cs "type") = some (JVal.str (cs "signal")) →
      (jsTruthyStr session.roomId = false ∨
       jvTruthy (jGet v (cs "targetClientId")) = false ∨
       (∀ rid, session.roomId = some rid → alGet rid st.activeRooms = none) ∨
       (∀ rid room, session.roomId = some rid → alGet rid st.activeRooms = some room →
          memberForTarget room (jGet v (cs "targetClientId")) = none)) →
      onMessage st cid (some v) fresh now = (st, [])) ∧
    (∀ v session, alGet cid st.sessions = some session →
      jGet v (cs "type") = some (JVal.str (cs "chat")) →
      (jsTruthyStr session.roomId = false ∨
       (∀ txt, jGet v (cs "text") ≠ some (JVal.str txt))) →
      onMessage st cid (some v) fresh now = (st, [])) := by
  intro st cid fresh now
  refine ⟨?_, ?_, ?_, ?_, ?_, ?_⟩
  · cases hsess : alGet cid st.sessions with
    | none => simp [onMessage, hsess]
    | some session => simp [onMessage, hsess]
  · intro v hobj
    cases hsess : alGet cid st.sessions with
    | none => simp [onMessage, hsess]
    | some session => simp [onMessage, hsess, hobj]
  · intro v htypes
    cases hsess : alGet cid st.sessions with
    | none => simp [onMessage, hsess]
    | some session =>
      cases hobj : objLike v with
      | false => simp [onMessage, hsess, hobj]
      | true =>
        simp only [onMessage, hsess, hobj]
        cases htype : jGet v (cs "type") with
        | none => rfl
        | some tv =>
          cases tv with
          | str t =>
            have ht := htypes t htype
            simp [ht.1, ht.2.1, ht.2.2]
          | null => rfl
          | bool b => rfl
          | num n => rfl
          | arr xs => rfl
          | obj fs => rfl
  · intro v htype hroom
    cases hsess : alGet cid st.sessions with
    | none => simp [onMessage, hsess]
    | some session =>
      cases hobj : objLike v with
      | false => simp [onMessage, hsess, hobj]
      | true =>
        have hstep : onMessage st cid (some v) fresh now = handleJoinMessage st session v := by
          simp [onMessage, hsess, hobj, htype]
        rw [hstep]
        exact handleJoinMessage_noop st session v hroom
  · intro v session hsess htype hguards
    cases hobj : objLike v with
    | false => simp [onMessage, hsess, hobj]
    | true =>
      have hne1 : ¬(cs "signal" = cs "join") := by decide
      have hstep : onMessage st cid (some v) fresh now
          = (st, handleSignalMessage st.activeRooms session v) := by
        simp [onMessage, hsess, hobj, htype, hne1]
      rw [hstep, handleSignalMessage_noop st.activeRooms session v hguards]
  · intro v session hsess htype hguards
    cases hobj : objLike v with
    | false => simp [onMessage, hsess, hobj]
    | true =>
      have hne1 : ¬(cs "chat" = cs "join") := by decide
      have hne2 : ¬(cs "chat" = cs "signal") := by decide
      have hstep : onMessage st cid (some v) fresh now
          = (st, handleChatMessage st.activeRooms session v fresh now) := by
        simp [onMessage, hsess, hobj, htype, hne1, hne2]
      rw [hstep, handleChatMessage_noop st.activeRooms session v fresh now hguards]

/-- C9 (witness): a frame that parses to the number 3 is silently dropped from
the initial state. -/
theorem onMessage_malformed_noop_witness :
    objLike (JVal.num 3) = false ∧
    onMessage initialState (cs "W") (some (JVal.num 3)) (cs "f") 0 = (initialState, []) :=
  ⟨rfl, (onMessage_malformed_noop initialState (cs "W") (cs "f") 0).2.1 (JVal.num 3) rfl⟩

theorem generateRoomId_step0 (existing : List (List Char)) (entropy : Nat → List Nat) :
    generateRoomId existing entropy =
      if normalizeRoomId (codeFromBytes (entropy 0)) ∈ existing
      then genAux existing entropy 1 19
      else some (normalizeRoomId (codeFromBytes (entropy 0))) := rfl

theorem genAux_step1 (existing : List (List Char)) (entropy : Nat → List Nat) :
    genAux existing entropy 1 19 =
      if normalizeRoomId (codeFromBytes (entropy 1)) ∈ existing
      then genAux existing entropy 2 18
      else some (normalizeRoomId (codeFromBytes (entropy 1))) := rfl

/-- C3: across any sequence of `createRoom` calls the returned room ids are
pairwise distinct; every id `generateRoomId` returns is exactly 6 characters
drawn from the 31-character alphabet `ABCDEFGHJKMNPQRSTUVWXYZ23456789`; a
freshly sampled code that collides with an existing one is retried (when the
first sample collides and the second does not, the second is returned); and
when all 20 samples collide `createRoom` fails with the fatal allocation
error instead of returning a duplicate. -/
theorem createRoom_ids_unique :
    (∀ store calls, ((runCreates store calls).2).Nodup) ∧
    (∀ existing entropy code, generateRoomId existing entropy = some code →
        code.length = 6 ∧ ∀ c ∈ code, c ∈ ROOM_ID_ALPHABET) ∧
    (∀ existing entropy,
        normalizeRoomId (codeFromBytes (entropy 0)) ∈ existing →
        normalizeRoomId (codeFromBytes (entropy 1)) ∉ existing →
        generateRoomId existing entropy
          = some (normalizeRoomId (codeFromBytes (entropy 1)))) ∧
    (∀ store entropy tok now,
        (∀ i, i < 20 → normalizeRoomId (codeFromBytes (entropy i)) ∈ alKeys store.rooms) →
        createRoom store entropy tok now = none) := by
  refine ⟨?_, ?_, ?_, ?_⟩
  · intro store calls
    exact (runCreates_fresh calls store).1
  · intro existing entropy code h
    obtain ⟨_, i, rfl⟩ := genAux_spec existing entropy 20 0 code h
    rw [normalizeRoomId_code]
    exact ⟨codeFromBytes_length _, fun c hc => (codeFromBytes_char_facts _ c hc).2.2⟩
  · intro existing entropy h0 h1
    rw [generateRoomId_step0, if_pos h0, genAux_step1, if_neg h1]
  · intro store entropy tok now h
    have hgen : generateRoomId (alKeys store.rooms) entropy = none := by
      unfold generateRoomId
      exact genAux_none (alKeys store.rooms) entropy 20 0 (fun i h1 h2 => h i (by omega))
    simp [createRoom, hgen]

/-- C3 (witness): with all-zero entropy every sample is `AAAAAA`, which the
`fullStore` Ledger already holds, so all 20 attempts collide and room creation
fails fatally. -/
theorem createRoom_ids_unique_witness :
    (∀ i, i < 20 →
      normalizeRoomId (codeFromBytes (zeroEntropy i)) ∈ alKeys fullStore.rooms) ∧
    createRoom fullStore zeroEntropy (cs "t2") 1 = none := by
  have h : ∀ i, i < 20 →
      normalizeRoomId (codeFromBytes (zeroEntropy i)) ∈ alKeys fullStore.rooms := by
    intro i _
    show normalizeRoomId (codeFromBytes [0, 0, 0, 0, 0, 0]) ∈ alKeys fullStore.rooms
    decide
  exact ⟨h, createRoom_ids_unique.2.2.2 fullStore zeroEntropy (cs "t2") 1 h⟩
